import Mathlib

/-!
Verification of the scoring-and-classification engine of the NBA player
scouting dashboard (`src/app.py`) against its natural-language specification.

The numeric pipeline of the source operates on IEEE floats via pandas/numpy.
We embed the arithmetic over exact rationals (`ℚ`); a float value that is
non-finite (NaN or ±∞, e.g. produced by a zero-denominator normalization or
by `np.log(0)`) has no rational/real representative and is modelled as
`none : Option ℚ` / `none : Option ℝ`.  The logarithm `np.log(games_played)`
is modelled by `Real.log`.
-/

/-- The feature columns normalized by `calculate_metrics` (lines 57 and 70-71)
and `calculate_single_player_metrics` (lines 99 and 109). -/
inductive Feat
  | ppg | rpg | apg | spg | bpg | tov | fgPct | ftPct | threePct | twoPct
deriving DecidableEq, Fintype

/-- One row of the data frame: the `PlayerRecord` fields consumed by the core
(CSV columns `player_name, conference, games_played, mp, ppg, rpg, apg, spg,
bpg, to, fg%, 3p%, 2p%, ft%, Salary`).  The turnovers column `to` is named
`tov` here, and the percent columns `fg%`, `3p%`, `2p%`, `ft%` are named
`fgPct`, `threePct`, `twoPct`, `ftPct`. -/
structure Player where
  player_name : String
  conference : String
  games_played : ℕ
  mp : ℚ
  ppg : ℚ
  rpg : ℚ
  apg : ℚ
  spg : ℚ
  bpg : ℚ
  tov : ℚ
  fgPct : ℚ
  threePct : ℚ
  twoPct : ℚ
  ftPct : ℚ
  salary : ℕ
deriving DecidableEq

/-- Column access `df[col]` for the normalized feature columns. -/
def Player.feat (p : Player) : Feat → ℚ
  | .ppg => p.ppg
  | .rpg => p.rpg
  | .apg => p.apg
  | .spg => p.spg
  | .bpg => p.bpg
  | .tov => p.tov
  | .fgPct => p.fgPct
  | .ftPct => p.ftPct
  | .threePct => p.threePct
  | .twoPct => p.twoPct

/-- `df[col].min()`: the column minimum over the population; `none` on an
empty frame (pandas yields NaN there). -/
def colMin : List Player → Feat → Option ℚ
  | [], _ => none
  | p :: ps, f => some (ps.foldl (fun acc q => min acc (q.feat f)) (p.feat f))

/-- `df[col].max()`: the column maximum over the population; `none` on an
empty frame. -/
def colMax : List Player → Feat → Option ℚ
  | [], _ => none
  | p :: ps, f => some (ps.foldl (fun acc q => max acc (q.feat f)) (p.feat f))

/-- Batch-path normalization, `calculate_metrics` lines 59 and 70-71:
`(df[col] - df[col].min()) / (df[col].max() - df[col].min())` with **no**
degenerate-range guard.  When `max = min` the float division yields NaN
(for the extremal value) or ±∞, i.e. a non-finite value, modelled `none`. -/
def normBatch (pop : List Player) (f : Feat) (x : ℚ) : Option ℚ :=
  match colMin pop f, colMax pop f with
  | some mn, some mx => if mx - mn ≠ 0 then some ((x - mn) / (mx - mn)) else none
  | _, _ => none

/-- Incremental-path normalization, `calculate_single_player_metrics` lines
99-115: identical formula but guarded, `if col_max - col_min > 0 then
(x - min)/(max - min) else 0`.  (On an empty frame the NaN comparison
`col_max - col_min > 0` is false in numpy, so the guard also yields 0.) -/
def normSingle (pop : List Player) (f : Feat) (x : ℚ) : ℚ :=
  match colMin pop f, colMax pop f with
  | some mn, some mx => if mx - mn > 0 then (x - mn) / (mx - mn) else 0
  | _, _ => 0

/-- `true` iff the feature has a non-degenerate range over the population
(`max > min`), i.e. the batch normalization denominator is nonzero. -/
def featNondeg (pop : List Player) (f : Feat) : Bool :=
  match colMin pop f, colMax pop f with
  | some mn, some mx => decide (mn < mx)
  | _, _ => false

/-- Every feature column has a non-degenerate range over the population. -/
def Nondeg (pop : List Player) : Prop :=
  ∀ f : Feat, featNondeg pop f = true

instance (pop : List Player) : Decidable (Nondeg pop) :=
  inferInstanceAs (Decidable (∀ f : Feat, featNondeg pop f = true))

/-- `calculate_metrics` lines 62-64: the CEM weighted sum of the (batch-)
normalized features.  A non-finite normalized input propagates (`none`). -/
def CEM (pop : List Player) (p : Player) : Option ℚ := do
  let nppg ← normBatch pop .ppg p.ppg
  let nrpg ← normBatch pop .rpg p.rpg
  let napg ← normBatch pop .apg p.apg
  let nspg ← normBatch pop .spg p.spg
  let nbpg ← normBatch pop .bpg p.bpg
  let nto ← normBatch pop .tov p.tov
  let nfg ← normBatch pop .fgPct p.fgPct
  let nft ← normBatch pop .ftPct p.ftPct
  pure (0.35 * nppg + 0.20 * nrpg + 0.20 * napg +
        0.05 * nspg + 0.05 * nbpg - 0.10 * nto +
        0.10 * nfg + 0.05 * nft)

/-- `calculate_metrics` lines 74-77: the PER-like weighted sum. -/
def PER_like (pop : List Player) (p : Player) : Option ℚ := do
  let nppg ← normBatch pop .ppg p.ppg
  let nrpg ← normBatch pop .rpg p.rpg
  let napg ← normBatch pop .apg p.apg
  let nspg ← normBatch pop .spg p.spg
  let nbpg ← normBatch pop .bpg p.bpg
  let nfg ← normBatch pop .fgPct p.fgPct
  let n3 ← normBatch pop .threePct p.threePct
  let n2 ← normBatch pop .twoPct p.twoPct
  let nft ← normBatch pop .ftPct p.ftPct
  let nto ← normBatch pop .tov p.tov
  pure (0.35 * nppg + 0.20 * nrpg + 0.20 * napg +
        0.05 * nspg + 0.05 * nbpg + 0.10 * nfg +
        0.07 * n3 + 0.05 * n2 + 0.05 * nft -
        0.10 * nto)

/-- `np.log(games_played)`: finite exactly when `games_played ≥ 1`
(`np.log(0) = -inf`, a non-finite float, modelled `none`; no exception is
raised — numpy only emits a runtime warning). -/
noncomputable def lnGames (gp : ℕ) : Option ℝ :=
  if 1 ≤ gp then some (Real.log gp) else none

/-- `calculate_metrics` line 67: `Final_CEM = CEM * np.log(games_played)`.
Non-finite if either factor is. -/
noncomputable def Final_CEM (pop : List Player) (p : Player) : Option ℝ := do
  let c ← CEM pop p
  let l ← lnGames p.games_played
  pure ((c : ℝ) * l)

/-- `calculate_metrics` line 79: `MVPCEM = PER_like * np.log(games_played)`. -/
noncomputable def MVPCEM (pop : List Player) (p : Player) : Option ℝ := do
  let c ← PER_like pop p
  let l ← lnGames p.games_played
  pure ((c : ℝ) * l)

/-- One output row of `calculate_metrics`: the input record together with its
derived metric columns. -/
structure Scored where
  player : Player
  cem : Option ℚ
  per_like : Option ℚ
  final_cem : Option ℝ
  mvpcem : Option ℝ

/-- `calculate_metrics` (lines 52-81): works on a copy of the frame and adds
the metric columns row by row; no exception can be raised on any input
(division by zero and `np.log` of a nonpositive number only produce
non-finite values plus warnings), so the function is total. -/
noncomputable def calculate_metrics (df : List Player) : List Scored :=
  df.map (fun p => ⟨p, CEM df p, PER_like df p, Final_CEM df p, MVPCEM df p⟩)

/-- `calculate_single_player_metrics` (lines 93-135), in state-passing form:
the second component is the caller's reference frame `df` after the call.
`pd.concat` (line 96) copies `df` into the fresh frame `df_combined`; all
subsequent column writes target `df_combined` and `df` is never assigned, so
the reference frame comes back unchanged. -/
noncomputable def calculate_single_player_metrics (player_data : Player)
    (df : List Player) : (Option ℝ × Option ℝ) × List Player :=
  let df_combined := df ++ [player_data]
  let n := fun f => normSingle df_combined f (player_data.feat f)
  let cem := 0.35 * n .ppg + 0.20 * n .rpg + 0.20 * n .apg +
             0.05 * n .spg + 0.05 * n .bpg - 0.10 * n .tov +
             0.10 * n .fgPct + 0.05 * n .ftPct
  let final_cem := (lnGames player_data.games_played).map (fun l => (cem : ℝ) * l)
  let per_like := 0.35 * n .ppg + 0.20 * n .rpg + 0.20 * n .apg +
                  0.05 * n .spg + 0.05 * n .bpg + 0.10 * n .fgPct +
                  0.07 * n .threePct + 0.05 * n .twoPct + 0.05 * n .ftPct -
                  0.10 * n .tov
  let mvpcem := (lnGames player_data.games_played).map (fun l => (per_like : ℝ) * l)
  ((final_cem, mvpcem), df)

/-- The three caliber tier labels of `classify_players` (line 88). -/
inductive Tier
  | mvp | allNBA | allStar
deriving DecidableEq

/-- A record as seen by the classifier: an identity plus the value of the
chosen composite-metric column.  `classify_players` reads only the metric
column of the scored frame, so we model its input generically over exact
metric values. -/
structure Row where
  name : String
  score : ℚ
deriving DecidableEq

/-- The descending sort `df.sort_values(by=metric, ascending=False)`
(line 86). -/
def rowGE (a b : Row) : Prop := b.score ≤ a.score

instance : DecidableRel rowGE := fun a b =>
  inferInstanceAs (Decidable (b.score ≤ a.score))

instance : IsTotal Row rowGE := ⟨fun a b => le_total b.score a.score⟩

instance : IsTrans Row rowGE := ⟨fun _ _ _ hab hbc => le_trans hbc hab⟩

/-- Ascending sort of the metric column, as done internally by
`Series.quantile`. -/
def sortAsc (xs : List ℚ) : List ℚ := List.insertionSort (· ≤ ·) xs

/-- `Series.quantile(p)` with the default linear interpolation, on the sorted
values: with `h = p·(n−1)`, `j = ⌊h⌋` and `g = h − j`, the result is
`v_j + g·(v_{j+1} − v_j)`; `none` on an empty series (pandas yields NaN). -/
def quantileSorted (xs : List ℚ) (p : ℚ) : Option ℚ :=
  match xs with
  | [] => none
  | _ :: _ =>
    let n := xs.length
    let h := p * ((n : ℚ) - 1)
    let j := (Int.floor h).toNat
    let g := h - (j : ℚ)
    some (xs.getD j 0 + g * (xs.getD (j + 1) 0 - xs.getD j 0))

/-- Bin assignment of `pd.qcut` for three right-closed bins with internal
edges `e1 ≤ e2` (the lowest edge is inclusive of the data minimum): the bin
index of `x` is the number of internal edges strictly below `x`, and the
ascending labels are `categories[::-1] = [All-Star, All-NBA, MVP]`
(lines 88-89). -/
def qcutLabel (e1 e2 x : ℚ) : Tier :=
  match List.countP (fun e => decide (e < x)) [e1, e2] with
  | 0 => Tier.allStar
  | 1 => Tier.allNBA
  | _ => Tier.mvp

/-- `classify_players` (lines 83-91): sort descending by the metric, then
`pd.qcut(df_sorted[metric], 3, labels=categories[::-1])`.  `qcut` cuts at the
quantiles `[0, 1/3, 2/3, 1]` of the column and raises
`ValueError: Bin edges must be unique` (modelled `none`) when the four edges
are not pairwise distinct; the edges are nondecreasing, so uniqueness is
strict ascent. -/
def classify_players (rows : List Row) : Option (List (Row × Tier)) :=
  let df_sorted := List.insertionSort rowGE rows
  let vals := sortAsc (rows.map Row.score)
  match quantileSorted vals 0, quantileSorted vals (1/3),
        quantileSorted vals (2/3), quantileSorted vals 1 with
  | some e0, some e1, some e2, some e3 =>
    if e0 < e1 ∧ e1 < e2 ∧ e2 < e3 then
      some (df_sorted.map (fun r => (r, qcutLabel e1 e2 r.score)))
    else none
  | _, _, _, _ => none

/-- Modelled from the spec (§4.2): the CEM weighted sum over already
normalized inputs, written exactly in the spec's term order. -/
def spec_CEM (nppg nrpg napg nspg nbpg nto nfg nft : ℚ) : ℚ :=
  0.35 * nppg + 0.20 * nrpg + 0.20 * napg + 0.05 * nspg + 0.05 * nbpg -
  0.10 * nto + 0.10 * nfg + 0.05 * nft

/-- Modelled from the spec (§4.2): the PERLike weighted sum over already
normalized inputs, written exactly in the spec's term order. -/
def spec_PERLike (nppg nrpg napg nspg nbpg nfg n3 n2 nft nto : ℚ) : ℚ :=
  0.35 * nppg + 0.20 * nrpg + 0.20 * napg + 0.05 * nspg + 0.05 * nbpg +
  0.10 * nfg + 0.07 * n3 + 0.05 * n2 + 0.05 * nft - 0.10 * nto

/-- `main` line 321: the insert preview scores the candidate against the full
stored population, excluding nothing. -/
noncomputable def insertEvaluation (df : List Player) (player_data : Player) :
    Option ℝ × Option ℝ :=
  (calculate_single_player_metrics player_data df).1

/-- `main` line 442: the edit preview excludes the prior version of the edited
name from the reference set, `df[df['player_name'] != edit_player]`, before
scoring the updated record. -/
noncomputable def editReference (df : List Player) (edit_player : String) :
    List Player :=
  df.filter (fun r => r.player_name ≠ edit_player)

/-- `main` line 442: the edit preview scores the updated record against the
name-filtered reference population. -/
noncomputable def editEvaluation (df : List Player) (edit_player : String)
    (updated_data : Player) : Option ℝ × Option ℝ :=
  (calculate_single_player_metrics updated_data (editReference df edit_player)).1

lemma foldl_min_feat_le_init (ps : List Player) (f : Feat) (a : ℚ) :
    ps.foldl (fun acc q => min acc (q.feat f)) a ≤ a := by
  induction ps generalizing a with
  | nil => simp
  | cons b t ih =>
    calc (b :: t).foldl (fun acc q => min acc (q.feat f)) a
        = t.foldl (fun acc q => min acc (q.feat f)) (min a (b.feat f)) := rfl
    _ ≤ min a (b.feat f) := ih (min a (b.feat f))
    _ ≤ a := min_le_left _ _

lemma foldl_min_feat_le_mem (ps : List Player) (f : Feat) (q : Player) :
    q ∈ ps → ∀ a : ℚ, ps.foldl (fun acc r => min acc (r.feat f)) a ≤ q.feat f := by
  induction ps with
  | nil => intro hq; cases hq
  | cons b t ih =>
    intro hq a
    rcases List.mem_cons.mp hq with rfl | hq2
    · calc (q :: t).foldl (fun acc r => min acc (r.feat f)) a
          = t.foldl (fun acc r => min acc (r.feat f)) (min a (q.feat f)) := rfl
      _ ≤ min a (q.feat f) := foldl_min_feat_le_init t f _
      _ ≤ q.feat f := min_le_right _ _
    · exact ih hq2 (min a (b.feat f))

lemma le_foldl_max_feat_init (ps : List Player) (f : Feat) (a : ℚ) :
    a ≤ ps.foldl (fun acc q => max acc (q.feat f)) a := by
  induction ps generalizing a with
  | nil => simp
  | cons b t ih =>
    calc a ≤ max a (b.feat f) := le_max_left _ _
    _ ≤ t.foldl (fun acc q => max acc (q.feat f)) (max a (b.feat f)) :=
        ih (max a (b.feat f))
    _ = (b :: t).foldl (fun acc q => max acc (q.feat f)) a := rfl

lemma le_foldl_max_feat_mem (ps : List Player) (f : Feat) (q : Player) :
    q ∈ ps → ∀ a : ℚ, q.feat f ≤ ps.foldl (fun acc r => max acc (r.feat f)) a := by
  induction ps with
  | nil => intro hq; cases hq
  | cons b t ih =>
    intro hq a
    rcases List.mem_cons.mp hq with rfl | hq2
    · calc q.feat f ≤ max a (q.feat f) := le_max_right _ _
      _ ≤ t.foldl (fun acc r => max acc (r.feat f)) (max a (q.feat f)) :=
          le_foldl_max_feat_init t f _
      _ = (q :: t).foldl (fun acc r => max acc (r.feat f)) a := rfl
    · exact ih hq2 (max a (b.feat f))

/-- The column minimum bounds every value drawn from the population below. -/
lemma colMin_le_of_mem {pop : List Player} {f : Feat} {mn : ℚ} {p : Player}
    (hmin : colMin pop f = some mn) (hp : p ∈ pop) : mn ≤ p.feat f := by
  match pop, hp with
  | q :: ps, hp =>
    simp only [colMin, Option.some.injEq] at hmin
    subst hmin
    rcases List.mem_cons.mp hp with rfl | hp2
    · exact foldl_min_feat_le_init ps f (p.feat f)
    · exact foldl_min_feat_le_mem ps f p hp2 (q.feat f)

/-- The column maximum bounds every value drawn from the population above. -/
lemma le_colMax_of_mem {pop : List Player} {f : Feat} {mx : ℚ} {p : Player}
    (hmax : colMax pop f = some mx) (hp : p ∈ pop) : p.feat f ≤ mx := by
  match pop, hp with
  | q :: ps, hp =>
    simp only [colMax, Option.some.injEq] at hmax
    subst hmax
    rcases List.mem_cons.mp hp with rfl | hp2
    · exact le_foldl_max_feat_init ps f (p.feat f)
    · exact le_foldl_max_feat_mem ps f p hp2 (q.feat f)

/-- On a non-degenerate feature the guardless batch normalization and the
guarded incremental normalization agree (and are finite). -/
lemma normBatch_eq_normSingle {pop : List Player} {f : Feat}
    (hnd : featNondeg pop f = true) (x : ℚ) :
    normBatch pop f x = some (normSingle pop f x) := by
  unfold featNondeg at hnd
  unfold normBatch normSingle
  cases hmin : colMin pop f with
  | none => rw [hmin] at hnd; simp at hnd
  | some mn =>
    cases hmax : colMax pop f with
    | none => rw [hmin, hmax] at hnd; simp at hnd
    | some mx =>
      rw [hmin, hmax] at hnd
      simp only [decide_eq_true_eq] at hnd
      have hpos : mx - mn > 0 := sub_pos.mpr hnd
      show (if mx - mn ≠ 0 then some ((x - mn) / (mx - mn)) else none)
          = some (if mx - mn > 0 then (x - mn) / (mx - mn) else 0)
      rw [if_pos (ne_of_gt hpos), if_pos hpos]

/-- A concrete player whose every feature value is 0. -/
def pA : Player :=
  { player_name := "A", conference := "EAST", games_played := 82, mp := 30,
    ppg := 0, rpg := 0, apg := 0, spg := 0, bpg := 0, tov := 0,
    fgPct := 0, threePct := 0, twoPct := 0, ftPct := 0, salary := 0 }

/-- A concrete player whose every feature value is 1. -/
def pB : Player :=
  { player_name := "B", conference := "WEST", games_played := 82, mp := 30,
    ppg := 1, rpg := 1, apg := 1, spg := 1, bpg := 1, tov := 1,
    fgPct := 1, threePct := 1, twoPct := 1, ftPct := 1, salary := 0 }

/-- C1: for every population and every record in it, the batch scorer computes
`CEM` and `PER_like` exactly as the spec's weighted sums of the normalized
features, and `Final_CEM = CEM · ln(gamesPlayed)`,
`MVPCEM = PER_like · ln(gamesPlayed)`. -/
theorem calculate_metrics_weighted_sums (pop : List Player) (p : Player)
    (_hmem : p ∈ pop) (hgp : 1 ≤ p.games_played)
    (nppg nrpg napg nspg nbpg nto nfg nft n3 n2 : ℚ)
    (h1 : normBatch pop .ppg p.ppg = some nppg)
    (h2 : normBatch pop .rpg p.rpg = some nrpg)
    (h3 : normBatch pop .apg p.apg = some napg)
    (h4 : normBatch pop .spg p.spg = some nspg)
    (h5 : normBatch pop .bpg p.bpg = some nbpg)
    (h6 : normBatch pop .tov p.tov = some nto)
    (h7 : normBatch pop .fgPct p.fgPct = some nfg)
    (h8 : normBatch pop .ftPct p.ftPct = some nft)
    (h9 : normBatch pop .threePct p.threePct = some n3)
    (h10 : normBatch pop .twoPct p.twoPct = some n2) :
    CEM pop p = some (spec_CEM nppg nrpg napg nspg nbpg nto nfg nft) ∧
    PER_like pop p = some (spec_PERLike nppg nrpg napg nspg nbpg nfg n3 n2 nft nto) ∧
    Final_CEM pop p =
      some ((spec_CEM nppg nrpg napg nspg nbpg nto nfg nft : ℚ) *
        Real.log p.games_played) ∧
    MVPCEM pop p =
      some ((spec_PERLike nppg nrpg napg nspg nbpg nfg n3 n2 nft nto : ℚ) *
        Real.log p.games_played) := by
  have hl : lnGames p.games_played = some (Real.log p.games_played) := by
    unfold lnGames; rw [if_pos hgp]
  have hc : CEM pop p = some (spec_CEM nppg nrpg napg nspg nbpg nto nfg nft) := by
    simp only [CEM, h1, h2, h3, h4, h5, h6, h7, h8, Option.some_bind, bind,
      Option.bind_some]
    refine congrArg some ?_
    unfold spec_CEM
    ring
  have hper : PER_like pop p =
      some (spec_PERLike nppg nrpg napg nspg nbpg nfg n3 n2 nft nto) := by
    simp only [PER_like, h1, h2, h3, h4, h5, h6, h7, h8, h9, h10,
      Option.some_bind, bind, Option.bind_some]
    refine congrArg some ?_
    unfold spec_PERLike
    ring
  refine ⟨hc, hper, ?_, ?_⟩
  · simp only [Final_CEM, hc, hl, Option.some_bind, bind, Option.bind_some,
      Option.pure_def]
  · simp only [MVPCEM, hper, hl, Option.some_bind, bind, Option.bind_some,
      Option.pure_def]

/-- Witness for C1 at the concrete two-record population `[pA, pB]` and the
record `pB`, all of whose normalized features are 1. -/
theorem calculate_metrics_weighted_sums_app :
    CEM [pA, pB] pB = some (spec_CEM 1 1 1 1 1 1 1 1) ∧
    PER_like [pA, pB] pB = some (spec_PERLike 1 1 1 1 1 1 1 1 1 1) ∧
    Final_CEM [pA, pB] pB =
      some ((spec_CEM 1 1 1 1 1 1 1 1 : ℚ) * Real.log pB.games_played) ∧
    MVPCEM [pA, pB] pB =
      some ((spec_PERLike 1 1 1 1 1 1 1 1 1 1 : ℚ) * Real.log pB.games_played) :=
  calculate_metrics_weighted_sums [pA, pB] pB (by simp) (by norm_num [pB])
    1 1 1 1 1 1 1 1 1 1
    (by norm_num [normBatch, colMin, colMax, pA, pB, Player.feat, min_def, max_def])
    (by norm_num [normBatch, colMin, colMax, pA, pB, Player.feat, min_def, max_def])
    (by norm_num [normBatch, colMin, colMax, pA, pB, Player.feat, min_def, max_def])
    (by norm_num [normBatch, colMin, colMax, pA, pB, Player.feat, min_def, max_def])
    (by norm_num [normBatch, colMin, colMax, pA, pB, Player.feat, min_def, max_def])
    (by norm_num [normBatch, colMin, colMax, pA, pB, Player.feat, min_def, max_def])
    (by norm_num [normBatch, colMin, colMax, pA, pB, Player.feat, min_def, max_def])
    (by norm_num [normBatch, colMin, colMax, pA, pB, Player.feat, min_def, max_def])
    (by norm_num [normBatch, colMin, colMax, pA, pB, Player.feat, min_def, max_def])
    (by norm_num [normBatch, colMin, colMax, pA, pB, Player.feat, min_def, max_def])

lemma normSingle_eq (pop : List Player) (f : Feat) (x mn mx : ℚ)
    (hmin : colMin pop f = some mn) (hmax : colMax pop f = some mx) :
    normSingle pop f x = if mx - mn > 0 then (x - mn) / (mx - mn) else 0 := by
  unfold normSingle
  rw [hmin, hmax]

lemma normBatch_eq (pop : List Player) (f : Feat) (x mn mx : ℚ)
    (hmin : colMin pop f = some mn) (hmax : colMax pop f = some mx) :
    normBatch pop f x = if mx - mn ≠ 0 then some ((x - mn) / (mx - mn)) else none := by
  unfold normBatch
  rw [hmin, hmax]

/-- C3 (amended): on a feature whose min equals its max across the population,
the incremental evaluator's normalization returns 0, while the batch path's
unguarded division produces an undefined (non-finite) value instead. -/
theorem normalization_degenerate_behavior (pop : List Player) (f : Feat)
    (x mn : ℚ) (hmin : colMin pop f = some mn) (hmax : colMax pop f = some mn) :
    normSingle pop f x = 0 ∧ normBatch pop f x = none := by
  constructor
  · rw [normSingle_eq pop f x mn mn hmin hmax, sub_self]
    simp
  · rw [normBatch_eq pop f x mn mn hmin hmax, sub_self]
    simp

/-- Counterexample to C3 as stated: on the single-record population `[pA]`
(min = max on every feature) the batch scoring path does **not** return 0 —
the division `0/0` yields an undefined (NaN) value — while the incremental
path returns 0, so the degenerate behavior does not hold identically in the
two paths. -/
theorem normalization_degenerate_paths_differ :
    normSingle [pA] Feat.ppg (pA.feat Feat.ppg) = 0 ∧
    normBatch [pA] Feat.ppg (pA.feat Feat.ppg) = none ∧
    normBatch [pA] Feat.ppg (pA.feat Feat.ppg) ≠ some 0 := by
  refine ⟨?_, ?_, ?_⟩ <;>
    simp [normSingle, normBatch, colMin, colMax, pA, Player.feat]

/-- Witness for the amended C3 at the single-record population `[pB]`. -/
theorem normalization_degenerate_behavior_app :
    normSingle [pB] Feat.rpg 5 = 0 ∧ normBatch [pB] Feat.rpg 5 = none :=
  normalization_degenerate_behavior [pB] Feat.rpg 5 1
    (by norm_num [colMin, pB, Player.feat])
    (by norm_num [colMax, pB, Player.feat])

/-- C4 (amended): every value drawn from the population normalizes into
`[0,1]` in the incremental path, and on every non-degenerate feature the
batch path produces that same in-range value; on a degenerate feature the
batch path's normalized value is undefined (NaN) rather than a number in
`[0,1]`. -/
theorem normalize_mem_unit_interval (pop : List Player) (f : Feat) (p : Player)
    (hp : p ∈ pop) :
    0 ≤ normSingle pop f (p.feat f) ∧ normSingle pop f (p.feat f) ≤ 1 ∧
    (featNondeg pop f = true →
      normBatch pop f (p.feat f) = some (normSingle pop f (p.feat f))) := by
  match pop, hp with
  | q :: ps, hp =>
    have hmin : colMin (q :: ps) f =
        some (ps.foldl (fun acc r => min acc (r.feat f)) (q.feat f)) := rfl
    have hmax : colMax (q :: ps) f =
        some (ps.foldl (fun acc r => max acc (r.feat f)) (q.feat f)) := rfl
    have h1 := colMin_le_of_mem hmin hp
    have h2 := le_colMax_of_mem hmax hp
    rw [normSingle_eq _ _ _ _ _ hmin hmax]
    refine ⟨?_, ?_, fun hnd => normBatch_eq_normSingle hnd _⟩
    · split_ifs with hpos
      · exact div_nonneg (by linarith) (le_of_lt hpos)
      · exact le_refl 0
    · split_ifs with hpos
      · exact (div_le_one hpos).mpr (by linarith)
      · exact zero_le_one
/-- Counterexample to C4 as stated: on the single-record population `[pB]`
the batch normalization of the record's own `apg` value is not a number in
`[0,1]` — the `0/0` division leaves it undefined (NaN). -/
theorem normBatch_degenerate_undefined :
    normBatch [pB] Feat.apg (pB.feat Feat.apg) = none := by
  norm_num [normBatch, colMin, colMax, pB, Player.feat]

/-- Witness for the amended C4 at `pA ∈ [pA, pB]` and the feature `spg`. -/
theorem normalize_mem_unit_interval_app :
    0 ≤ normSingle [pA, pB] Feat.spg (pA.feat Feat.spg) ∧
    normSingle [pA, pB] Feat.spg (pA.feat Feat.spg) ≤ 1 ∧
    (featNondeg [pA, pB] Feat.spg = true →
      normBatch [pA, pB] Feat.spg (pA.feat Feat.spg) =
        some (normSingle [pA, pB] Feat.spg (pA.feat Feat.spg))) :=
  normalize_mem_unit_interval [pA, pB] Feat.spg pA (by simp)

/-- C2 (amended): whenever every feature has a non-degenerate range over the
extended population, the incremental evaluator's `Final_CEM`/`MVPCEM` for the
candidate are exactly the values the batch scorer assigns to the candidate
row of the extended population.  (Both paths then perform the identical
normalization and weighted-sum operations, so the float runs also agree
bit-for-bit.) -/
theorem incremental_eq_batch_nondeg (player_data : Player) (df : List Player)
    (hnd : Nondeg (df ++ [player_data])) :
    (calculate_single_player_metrics player_data df).1.1 =
      Final_CEM (df ++ [player_data]) player_data ∧
    (calculate_single_player_metrics player_data df).1.2 =
      MVPCEM (df ++ [player_data]) player_data := by
  have hppg := normBatch_eq_normSingle (hnd Feat.ppg) player_data.ppg
  have hrpg := normBatch_eq_normSingle (hnd Feat.rpg) player_data.rpg
  have hapg := normBatch_eq_normSingle (hnd Feat.apg) player_data.apg
  have hspg := normBatch_eq_normSingle (hnd Feat.spg) player_data.spg
  have hbpg := normBatch_eq_normSingle (hnd Feat.bpg) player_data.bpg
  have htov := normBatch_eq_normSingle (hnd Feat.tov) player_data.tov
  have hfg := normBatch_eq_normSingle (hnd Feat.fgPct) player_data.fgPct
  have hft := normBatch_eq_normSingle (hnd Feat.ftPct) player_data.ftPct
  have h3p := normBatch_eq_normSingle (hnd Feat.threePct) player_data.threePct
  have h2p := normBatch_eq_normSingle (hnd Feat.twoPct) player_data.twoPct
  constructor
  · unfold calculate_single_player_metrics Final_CEM CEM
    simp only [Player.feat]
    rw [hppg, hrpg, hapg, hspg, hbpg, htov, hfg, hft]
    cases hl : lnGames player_data.games_played with
    | none => simp [hl]
    | some l => simp [hl]
  · unfold calculate_single_player_metrics MVPCEM PER_like
    simp only [Player.feat]
    rw [hppg, hrpg, hapg, hspg, hbpg, hfg, h3p, h2p, hft, htov]
    cases hl : lnGames player_data.games_played with
    | none => simp [hl]
    | some l => simp [hl]

/-- Counterexample to C2 as stated: scoring the candidate `pA` against the
reference population `[pA]` makes every feature of the extended population
`[pA, pA]` degenerate; the incremental evaluator returns a defined (finite)
`Final_CEM` while the batch scorer's value for that candidate is undefined
(NaN), so the two are not equal — let alone bit-for-bit. -/
theorem incremental_batch_disagree :
    Final_CEM ([pA] ++ [pA]) pA = none ∧
    (calculate_single_player_metrics pA [pA]).1.1 ≠
      Final_CEM ([pA] ++ [pA]) pA := by
  have hb : Final_CEM ([pA] ++ [pA]) pA = none := by
    simp [Final_CEM, CEM, normBatch, colMin, colMax, pA, Player.feat]
  refine ⟨hb, ?_⟩
  rw [hb]
  have hl : lnGames pA.games_played = some (Real.log (pA.games_played : ℕ)) := by
    unfold lnGames
    rw [if_pos]
    norm_num [pA]
  simp [calculate_single_player_metrics, hl]

/-- Witness for the amended C2 at the reference population `[pA]` and the
candidate `pB` (every feature of `[pA, pB]` is non-degenerate). -/
theorem incremental_eq_batch_nondeg_app :
    (calculate_single_player_metrics pB [pA]).1.1 =
      Final_CEM ([pA] ++ [pB]) pB ∧
    (calculate_single_player_metrics pB [pA]).1.2 =
      MVPCEM ([pA] ++ [pB]) pB :=
  incremental_eq_batch_nondeg pB [pA] (by
    unfold Nondeg
    intro f
    cases f <;>
      norm_num [featNondeg, colMin, colMax, pA, pB, Player.feat, min_def, max_def])

/-- A concrete player with `games_played = 0` and every feature value 0. -/
def pC : Player :=
  { player_name := "C", conference := "EAST", games_played := 0, mp := 30,
    ppg := 0, rpg := 0, apg := 0, spg := 0, bpg := 0, tov := 0,
    fgPct := 0, threePct := 0, twoPct := 0, ftPct := 0, salary := 0 }

/-- Modelled from the spec (§7): a ValidationError is demanded whenever some
record entering the MetricCalculator has `gamesPlayed < 1`; this predicate is
`true` exactly when the spec allows scoring to proceed. -/
def spec_validation_ok (pop : List Player) : Bool :=
  pop.all (fun p => 1 ≤ p.games_played)

/-- C8 (amended): the batch metric calculator performs no games-played
validation and never raises — it returns one scored row per record on every
population, and a record with `gamesPlayed = 0` is scored with non-finite
(`log 0 = −∞`) composite values rather than rejected.  (`gamesPlayed ≥ 1` is
enforced only by the UI form constraints, not by the calculator.) -/
theorem calculate_metrics_total (pop : List Player) :
    (calculate_metrics pop).length = pop.length ∧
    ∀ p ∈ pop, p.games_played = 0 →
      ∃ s ∈ calculate_metrics pop,
        s.player = p ∧ s.final_cem = none ∧ s.mvpcem = none := by
  constructor
  · simp [calculate_metrics]
  · intro p hp hgp
    refine ⟨⟨p, CEM pop p, PER_like pop p, Final_CEM pop p, MVPCEM pop p⟩,
      List.mem_map_of_mem _ hp, rfl, ?_, ?_⟩
    · cases hc : CEM pop p <;> simp [Final_CEM, lnGames, hgp, hc]
    · cases hc : PER_like pop p <;> simp [MVPCEM, lnGames, hgp, hc]

/-- Counterexample to C8 as stated: on the population `[pC, pB]` the spec
demands a ValidationError (`pC.games_played = 0 < 1`), but `calculate_metrics`
raises nothing: it produces a scored row for both records, and even computes
the finite composite `CEM = 0` for the invalid record. -/
theorem calculate_metrics_no_validation :
    spec_validation_ok [pC, pB] = false ∧
    pC.games_played < 1 ∧
    (calculate_metrics [pC, pB]).length = 2 ∧
    CEM [pC, pB] pC = some 0 := by
  refine ⟨?_, ?_, ?_, ?_⟩
  · simp [spec_validation_ok, pC]
  · norm_num [pC]
  · simp [calculate_metrics]
  · norm_num [CEM, normBatch, colMin, colMax, pC, pB, Player.feat,
      min_def, max_def]

/-- Witness for the amended C8 at the population `[pC, pB]` and the
zero-games record `pC`. -/
theorem calculate_metrics_total_app :
    (calculate_metrics [pC, pB]).length = [pC, pB].length ∧
    ∃ s ∈ calculate_metrics [pC, pB],
      s.player = pC ∧ s.final_cem = none ∧ s.mvpcem = none :=
  ⟨(calculate_metrics_total [pC, pB]).1,
   (calculate_metrics_total [pC, pB]).2 pC (by simp) rfl⟩

/-- C9: the edit preview's reference population is the stored population with
every record bearing the edited name excluded (and nothing else excluded),
while the insert preview's reference population is the full stored
population; both previews then score the candidate against that reference. -/
theorem incremental_reference_populations (df : List Player)
    (edit_player : String) (updated_data player_data r : Player) :
    (r ∈ editReference df edit_player ↔
      r ∈ df ∧ r.player_name ≠ edit_player) ∧
    editEvaluation df edit_player updated_data =
      (calculate_single_player_metrics updated_data
        (editReference df edit_player)).1 ∧
    insertEvaluation df player_data =
      (calculate_single_player_metrics player_data df).1 := by
  refine ⟨?_, rfl, rfl⟩
  simp [editReference]

/-- C10: the incremental evaluation is side-effect-free and idempotent — the
reference frame (hence each feature's min/max over it) is unchanged by the
call, and re-running the evaluator on the frame coming out of a call returns
the same pair of scores. -/
theorem incremental_no_mutation (player_data : Player) (df : List Player) :
    (calculate_single_player_metrics player_data df).2 = df ∧
    calculate_single_player_metrics player_data
        ((calculate_single_player_metrics player_data df).2) =
      calculate_single_player_metrics player_data df ∧
    ∀ f : Feat,
      colMin (calculate_single_player_metrics player_data df).2 f =
        colMin df f ∧
      colMax (calculate_single_player_metrics player_data df).2 f =
        colMax df f :=
  ⟨rfl, rfl, fun _ => ⟨rfl, rfl⟩⟩

lemma qcutLabel_eq (e1 e2 x : ℚ) (h : e1 ≤ e2) :
    qcutLabel e1 e2 x =
      if e2 < x then Tier.mvp
      else if e1 < x then Tier.allNBA
      else Tier.allStar := by
  unfold qcutLabel
  rcases lt_or_le e2 x with h2 | h2
  · have h1 : e1 < x := lt_of_le_of_lt h h2
    rw [if_pos h2]
    simp [List.countP_cons, h1, h2]
  · rw [if_neg (not_lt.mpr h2)]
    rcases lt_or_le e1 x with h1 | h1
    · rw [if_pos h1]
      simp [List.countP_cons, h1, not_lt.mpr h2]
    · rw [if_neg (not_lt.mpr h1)]
      simp [List.countP_cons, not_lt.mpr h1, not_lt.mpr h2]

lemma classify_players_some {rows : List Row} {out : List (Row × Tier)}
    (h : classify_players rows = some out) :
    ∃ e0 e1 e2 e3,
      quantileSorted (sortAsc (rows.map Row.score)) 0 = some e0 ∧
      quantileSorted (sortAsc (rows.map Row.score)) (1/3) = some e1 ∧
      quantileSorted (sortAsc (rows.map Row.score)) (2/3) = some e2 ∧
      quantileSorted (sortAsc (rows.map Row.score)) 1 = some e3 ∧
      (e0 < e1 ∧ e1 < e2 ∧ e2 < e3) ∧
      out = (List.insertionSort rowGE rows).map
        (fun r => (r, qcutLabel e1 e2 r.score)) := by
  simp only [classify_players] at h
  split at h
  case _ e0 e1 e2 e3 hq0 hq1 hq2 hq3 =>
    split at h
    case isTrue hc =>
      exact ⟨e0, e1, e2, e3, hq0, hq1, hq2, hq3, hc, (Option.some.inj h).symm⟩
    case isFalse => cases h
  case _ => cases h

lemma partition3_perm (l : List (Row × Tier)) :
    List.Perm ((l.filter (fun q => q.2 = Tier.mvp)) ++
      (l.filter (fun q => q.2 = Tier.allNBA)) ++
      (l.filter (fun q => q.2 = Tier.allStar))) l := by
  induction l with
  | nil => simp
  | cons a t ih =>
    rcases a with ⟨r, tr⟩
    cases tr with
    | mvp =>
      have h1 : List.filter (fun q => q.2 = Tier.mvp) ((r, Tier.mvp) :: t)
          = (r, Tier.mvp) :: List.filter (fun q => q.2 = Tier.mvp) t := by
        simp [List.filter_cons]
      have h2 : List.filter (fun q => q.2 = Tier.allNBA) ((r, Tier.mvp) :: t)
          = List.filter (fun q => q.2 = Tier.allNBA) t := by
        simp [List.filter_cons]
      have h3 : List.filter (fun q => q.2 = Tier.allStar) ((r, Tier.mvp) :: t)
          = List.filter (fun q => q.2 = Tier.allStar) t := by
        simp [List.filter_cons]
      rw [h1, h2, h3, List.cons_append, List.cons_append]
      exact List.Perm.cons _ ih
    | allNBA =>
      have h1 : List.filter (fun q => q.2 = Tier.mvp) ((r, Tier.allNBA) :: t)
          = List.filter (fun q => q.2 = Tier.mvp) t := by
        simp [List.filter_cons]
      have h2 : List.filter (fun q => q.2 = Tier.allNBA) ((r, Tier.allNBA) :: t)
          = (r, Tier.allNBA) :: List.filter (fun q => q.2 = Tier.allNBA) t := by
        simp [List.filter_cons]
      have h3 : List.filter (fun q => q.2 = Tier.allStar) ((r, Tier.allNBA) :: t)
          = List.filter (fun q => q.2 = Tier.allStar) t := by
        simp [List.filter_cons]
      rw [h1, h2, h3, List.append_assoc, List.cons_append]
      refine List.Perm.trans List.perm_middle ?_
      refine List.Perm.cons _ ?_
      rw [← List.append_assoc]
      exact ih
    | allStar =>
      have h1 : List.filter (fun q => q.2 = Tier.mvp) ((r, Tier.allStar) :: t)
          = List.filter (fun q => q.2 = Tier.mvp) t := by
        simp [List.filter_cons]
      have h2 : List.filter (fun q => q.2 = Tier.allNBA) ((r, Tier.allStar) :: t)
          = List.filter (fun q => q.2 = Tier.allNBA) t := by
        simp [List.filter_cons]
      have h3 : List.filter (fun q => q.2 = Tier.allStar) ((r, Tier.allStar) :: t)
          = (r, Tier.allStar) :: List.filter (fun q => q.2 = Tier.allStar) t := by
        simp [List.filter_cons]
      rw [h1, h2, h3]
      exact List.Perm.trans List.perm_middle (List.Perm.cons _ ih)

/-- C5 (amended): for every population of size ≥ 3 on which the quantile bin
edges are pairwise distinct (so `pd.qcut` does not raise), every record is
assigned exactly one of the three tiers and the three tiers together are
exactly the input population — nothing omitted, nothing duplicated. -/
theorem classify_partition (rows : List Row) (out : List (Row × Tier))
    (_h3 : 3 ≤ rows.length) (h : classify_players rows = some out) :
    List.Perm (((out.filter (fun q => q.2 = Tier.mvp)) ++
      (out.filter (fun q => q.2 = Tier.allNBA)) ++
      (out.filter (fun q => q.2 = Tier.allStar))).map Prod.fst) rows := by
  obtain ⟨e0, e1, e2, e3, hq0, hq1, hq2, hq3, hlt, hout⟩ := classify_players_some h
  subst hout
  have h2 := (partition3_perm ((List.insertionSort rowGE rows).map
    (fun r => (r, qcutLabel e1 e2 r.score)))).map Prod.fst
  rw [List.map_map] at h2
  have hid : (Prod.fst ∘ fun r : Row => (r, qcutLabel e1 e2 r.score)) = id := rfl
  rw [hid, List.map_id] at h2
  exact h2.trans (List.perm_insertionSort rowGE rows)

/-- A concrete scored population of three records with distinct metric
values. -/
def rows3 : List Row := [⟨"a", 1⟩, ⟨"b", 2⟩, ⟨"c", 3⟩]

/-- The classifier's output on `rows3`. -/
def out3 : List (Row × Tier) :=
  [(⟨"c", 3⟩, Tier.mvp), (⟨"b", 2⟩, Tier.allNBA), (⟨"a", 1⟩, Tier.allStar)]

lemma classify_rows3_eq : classify_players rows3 = some out3 := by
  norm_num [classify_players, sortAsc, quantileSorted, qcutLabel, rowGE, rows3,
    out3, List.insertionSort, List.orderedInsert, List.countP, List.countP.go,
    Int.floor_eq_zero_iff, Set.mem_Ico, Int.toNat]

/-- A concrete scored population of three records with equal metric values. -/
def rowsTie : List Row := [⟨"a", 5⟩, ⟨"b", 5⟩, ⟨"c", 5⟩]

/-- Counterexample to C5 as stated: on a population of size 3 whose metric
values are all equal, the quantile bin edges coincide and `pd.qcut` raises
`ValueError: Bin edges must be unique`, so no record receives any tier at
all. -/
theorem classify_ties_error :
    3 ≤ rowsTie.length ∧ classify_players rowsTie = none := by
  constructor
  · norm_num [rowsTie]
  · norm_num [classify_players, sortAsc, quantileSorted, rowsTie,
      List.insertionSort, List.orderedInsert]

/-- Witness for the amended C5 at the concrete population `rows3`. -/
theorem classify_partition_app :
    (3 ≤ rows3.length ∧ classify_players rows3 = some out3) ∧
    List.Perm (((out3.filter (fun q => q.2 = Tier.mvp)) ++
      (out3.filter (fun q => q.2 = Tier.allNBA)) ++
      (out3.filter (fun q => q.2 = Tier.allStar))).map Prod.fst) rows3 :=
  ⟨⟨by norm_num [rows3], classify_rows3_eq⟩,
   classify_partition rows3 out3 (by norm_num [rows3]) classify_rows3_eq⟩

/-- C6 (amended): the classifier sorts descending by the metric, and assigns
tiers by the linear-interpolation quantile cut points at the quantiles `1/3`
and `2/3` of the metric's distribution (the 33⅓rd and 66⅔th percentiles,
not the 33rd and 67th): a record strictly above the `2/3` cut is MVP-caliber,
a record above the `1/3` cut and at most the `2/3` cut is All-NBA-caliber,
and a record at or below the `1/3` cut is All-Star-caliber. -/
theorem classify_tertile_rule (rows : List Row) (out : List (Row × Tier))
    (h : classify_players rows = some out) :
    List.Pairwise (fun a b : Row × Tier => b.1.score ≤ a.1.score) out ∧
    ∀ q ∈ out, q.2 =
      (if (quantileSorted (sortAsc (rows.map Row.score)) (2/3)).getD 0 < q.1.score
       then Tier.mvp
       else if (quantileSorted (sortAsc (rows.map Row.score)) (1/3)).getD 0 <
           q.1.score
       then Tier.allNBA
       else Tier.allStar) := by
  obtain ⟨e0, e1, e2, e3, hq0, hq1, hq2, hq3, hlt, hout⟩ := classify_players_some h
  subst hout
  constructor
  · exact List.Pairwise.map _ (fun a b hab => hab)
      (List.sorted_insertionSort rowGE rows)
  · intro q hq
    rw [List.mem_map] at hq
    obtain ⟨r, hr, rfl⟩ := hq
    rw [hq1, hq2]
    simp only [Option.getD_some]
    exact qcutLabel_eq e1 e2 r.score (le_of_lt hlt.2.1)

/-- Witness for the amended C6 at the concrete population `rows3`. -/
theorem classify_tertile_rule_app :
    List.Pairwise (fun a b : Row × Tier => b.1.score ≤ a.1.score) out3 ∧
    ∀ q ∈ out3, q.2 =
      (if (quantileSorted (sortAsc (rows3.map Row.score)) (2/3)).getD 0 <
          q.1.score
       then Tier.mvp
       else if (quantileSorted (sortAsc (rows3.map Row.score)) (1/3)).getD 0 <
           q.1.score
       then Tier.allNBA
       else Tier.allStar) :=
  classify_tertile_rule rows3 out3 classify_rows3_eq

/-- A concrete scored population of four records with metric values
0, 1, 2, 3. -/
def rows4 : List Row := [⟨"a", 0⟩, ⟨"b", 1⟩, ⟨"c", 2⟩, ⟨"d", 3⟩]

/-- The classifier's output on `rows4`. -/
def out4 : List (Row × Tier) :=
  [(⟨"d", 3⟩, Tier.mvp), (⟨"c", 2⟩, Tier.allNBA),
   (⟨"b", 1⟩, Tier.allStar), (⟨"a", 0⟩, Tier.allStar)]

/-- Counterexample to C6 as stated: on `rows4` the linear-interpolation 33rd
and 67th percentile cuts are 0.99 and 2.01, and the record `b` with metric
value 1 lies strictly between them — under the claim it must be
All-NBA-caliber — yet the code (which cuts at the quantiles 1/3 and 2/3,
here 1 and 2) assigns it All-Star-caliber. -/
theorem classify_percentile_cut_mismatch :
    quantileSorted (sortAsc (rows4.map Row.score)) (33/100) = some (99/100) ∧
    quantileSorted (sortAsc (rows4.map Row.score)) (67/100) = some (201/100) ∧
    ((99 : ℚ)/100 < 1 ∧ (1 : ℚ) < 201/100) ∧
    classify_players rows4 = some out4 ∧
    ((⟨"b", 1⟩ : Row), Tier.allStar) ∈ out4 := by
  refine ⟨?_, ?_, by norm_num, ?_, by simp [out4]⟩
  · norm_num [quantileSorted, sortAsc, rows4, List.insertionSort,
      List.orderedInsert, Int.floor_eq_zero_iff, Set.mem_Ico, Int.toNat]
  · norm_num [quantileSorted, sortAsc, rows4, List.insertionSort,
      List.orderedInsert, Int.toNat, show Int.floor ((201 : ℚ)/100) = 2 by
        rw [Int.floor_eq_iff] ; norm_num]
  · norm_num [classify_players, sortAsc, quantileSorted, qcutLabel, rowGE,
      rows4, out4, List.insertionSort, List.orderedInsert, List.countP,
      List.countP.go, Int.floor_eq_zero_iff, Set.mem_Ico, Int.toNat]

lemma quantileSorted_singleton (v p : ℚ) : quantileSorted [v] p = some v := by
  unfold quantileSorted
  norm_num

lemma quantileSorted_pair_zero (a b : ℚ) : quantileSorted [a, b] 0 = some a := by
  unfold quantileSorted
  norm_num

lemma quantileSorted_pair_third (a b : ℚ) :
    quantileSorted [a, b] (1/3) = some (a + (1/3) * (b - a)) := by
  unfold quantileSorted
  norm_num [Int.floor_eq_zero_iff, Set.mem_Ico, Int.toNat]

lemma quantileSorted_pair_twothird (a b : ℚ) :
    quantileSorted [a, b] (2/3) = some (a + (2/3) * (b - a)) := by
  unfold quantileSorted
  norm_num [Int.floor_eq_zero_iff, Set.mem_Ico, Int.toNat]

lemma quantileSorted_pair_one (a b : ℚ) : quantileSorted [a, b] 1 = some b := by
  unfold quantileSorted
  norm_num [Int.toNat]

/-- C7 (amended): the classifier has no population-size check and no
InsufficientPopulationError.  A single-record population always fails — all
four quantile bin edges coincide, so `pd.qcut` raises its bin-edges
ValueError — while a two-record population with distinct metric values is
classified without any error (into three bins, at least one empty). -/
theorem classify_small_populations :
    (∀ r : Row, classify_players [r] = none) ∧
    ∀ a b : Row, a.score < b.score →
      (classify_players [a, b]).isSome = true := by
  constructor
  · intro r
    simp [classify_players, sortAsc, quantileSorted_singleton,
      List.insertionSort, List.orderedInsert]
  · intro a b hab
    have hsort : sortAsc (List.map Row.score [a, b]) = [a.score, b.score] := by
      simp [sortAsc, List.insertionSort, List.orderedInsert, le_of_lt hab]
    have hd : 0 < b.score - a.score := sub_pos.mpr hab
    have h13 : (0 : ℚ) < (1/3) * (b.score - a.score) := by positivity
    have h23 : (0 : ℚ) < (2/3) * (b.score - a.score) := by positivity
    simp only [classify_players, hsort, quantileSorted_pair_zero,
      quantileSorted_pair_third, quantileSorted_pair_twothird,
      quantileSorted_pair_one]
    rw [if_pos]
    · rfl
    · refine ⟨by linarith, by linarith, by linarith⟩

/-- A concrete two-record population with distinct metric values. -/
def rowsPair : List Row := [⟨"a", 0⟩, ⟨"b", 3⟩]

/-- Counterexample to C7 as stated: on the two-record population `rowsPair`
(size < 3) the classifier raises nothing and returns a tiered result instead
of an InsufficientPopulationError. -/
theorem classify_small_population_no_error :
    rowsPair.length < 3 ∧ (classify_players rowsPair).isSome = true := by
  constructor
  · norm_num [rowsPair]
  · norm_num [classify_players, sortAsc, quantileSorted, qcutLabel, rowGE,
      rowsPair, List.insertionSort, List.orderedInsert,
      Int.floor_eq_zero_iff, Set.mem_Ico, Int.toNat]

/-- Witness for the amended C7: a concrete singleton population errors, and a
concrete distinct pair succeeds. -/
theorem classify_small_populations_app :
    classify_players [⟨"q", 7⟩] = none ∧
    (classify_players [⟨"u", 1⟩, ⟨"v", 2⟩]).isSome = true :=
  ⟨classify_small_populations.1 ⟨"q", 7⟩,
   classify_small_populations.2 ⟨"u", 1⟩ ⟨"v", 2⟩ (by norm_num)⟩
